import Mathlib

/-!
Verification of the ring-setup core of this liburing fork (src/setup.c)
against its natural-language specification. The C code is shallowly
embedded: pure helpers become Lean functions on `Nat`/`Int` (with explicit
`% 2^32` where the C unsigned arithmetic can wrap), out-parameters become
explicit state passing, and the external primitives (`mmap`, `munmap`,
`close`, the `io_uring_setup` syscall) become oracle parameters plus an
event trace recording every resource acquisition and release.
-/

namespace LibUring

/-! ### Constants

`KERN_MAX_ENTRIES`, `KERN_MAX_CQ_ENTRIES`, `KRING_SIZE` and
`huge_page_size` are literal in src/setup.c. The errno values, the
`IORING_SETUP_*` flag bits, the mmap offsets and the struct sizes come
from the (external) system and liburing/io_uring ABI headers included by
setup.c; they are fixed ABI values. -/

def KERN_MAX_ENTRIES : Nat := 32768

def KERN_MAX_CQ_ENTRIES : Nat := 2 * KERN_MAX_ENTRIES

def KRING_SIZE : Nat := 320

/-- `static int huge_page_size = 2 * 1024 * 1024;` (src/setup.c). -/
def huge_page_size : Nat := 2 * 1024 * 1024

def EINVAL : Int := 22

def ENOMEM : Int := 12

/-- `sizeof(struct io_uring_sqe)` (fixed ABI size). -/
def SIZEOF_SQE : Nat := 64

/-- `sizeof(struct io_uring_cqe)` (fixed ABI size). -/
def SIZEOF_CQE : Nat := 16

/-- `sizeof(unsigned)` on the targeted LP64 ABI. -/
def SIZEOF_UNSIGNED : Nat := 4

def IORING_SETUP_CQSIZE : Nat := 8

def IORING_SETUP_CLAMP : Nat := 16

def IORING_SETUP_NO_MMAP : Nat := 16384

/-- Internal liburing flag marking caller-owned ring memory. Its numeric
value is defined in a header outside src/; none of the modeled behavior
depends on the particular (nonzero, power-of-two) value chosen here. -/
def IORING_INT_FLAG_APP_MEM : Nat := 4

def IORING_OFF_SQ_RING : Nat := 0

def IORING_OFF_CQ_RING : Nat := 0x8000000

def IORING_OFF_SQES : Nat := 0x10000000

/-- Modulus of the C `unsigned` type. -/
def U32 : Nat := 4294967296

/-! ### Bit helpers from src/setup.c -/

/-- Bit length with structural fuel recursion: for `x < 2^fuel`,
`flsAux fuel x` is the 1-based index of the highest set bit of `x`
(`0` for `0`). -/
def flsAux : Nat → Nat → Nat
  | 0, _ => 0
  | _ + 1, 0 => 0
  | fuel + 1, x + 1 => flsAux fuel ((x + 1) / 2) + 1

/-- `__fls`: `if (!x) return 0; return 8 * sizeof(x) - __builtin_clz(x);`
i.e. the index (1-based) of the highest set bit: `0` for `0`, else
`log2 x + 1`. Every argument reachable in setup.c is below `2^32`, where
the 64-fuel bit length agrees with the 32-bit `int` computation. -/
def fls (x : Nat) : Nat := flsAux 64 x

/-- `roundup_pow2`: `return 1UL << __fls(depth - 1);` where `depth` is
`unsigned`, so `depth - 1` wraps modulo `2^32` and the `unsigned` return
truncates the 64-bit shift result modulo `2^32`. -/
def roundup_pow2 (depth : Nat) : Nat :=
  (1 <<< fls ((depth + (U32 - 1)) % U32)) % U32

/-! ### Data model

`struct io_uring_params` fields read or written by setup.c. `flags` is
the raw bit-set; `features` keeps just the two feature bits setup.c
tests, as booleans. -/

structure SqOff where
  head : Nat
  tail : Nat
  ring_mask : Nat
  ring_entries : Nat
  flags : Nat
  dropped : Nat
  arr : Nat
  user_addr : Nat
deriving Repr, DecidableEq

structure CqOff where
  head : Nat
  tail : Nat
  ring_mask : Nat
  ring_entries : Nat
  overflow : Nat
  cqes : Nat
  flags : Nat
  user_addr : Nat
deriving Repr, DecidableEq

structure Params where
  flags : Nat
  sq_entries : Nat
  cq_entries : Nat
  features_single_mmap : Bool
  features_native_workers : Bool
  sq_off : SqOff
  cq_off : CqOff
deriving Repr, DecidableEq

/-! ### Depth negotiation (`get_sq_cq_entries`)

The C routine writes its results through out-pointers `*sq`, `*cq` only
on the success path and never writes to `*p`. The embedding passes the
initial contents of those locations and returns
`(ret, *sq, *cq, *p)` at the point of each `return`. -/

def get_sq_cq_entries (entries0 : Nat) (p : Params) (sq cq : Nat) :
    Int × Nat × Nat × Params :=
  if entries0 = 0 then (-EINVAL, sq, cq, p)
  else if KERN_MAX_ENTRIES < entries0 ∧ p.flags &&& IORING_SETUP_CLAMP = 0 then
    (-EINVAL, sq, cq, p)
  else
    let entries1 := if KERN_MAX_ENTRIES < entries0 then KERN_MAX_ENTRIES else entries0
    let entries := roundup_pow2 entries1
    if p.flags &&& IORING_SETUP_CQSIZE ≠ 0 then
      if p.cq_entries = 0 then (-EINVAL, sq, cq, p)
      else if KERN_MAX_CQ_ENTRIES < p.cq_entries ∧ p.flags &&& IORING_SETUP_CLAMP = 0 then
        (-EINVAL, sq, cq, p)
      else
        let ce1 := if KERN_MAX_CQ_ENTRIES < p.cq_entries then KERN_MAX_CQ_ENTRIES
                   else p.cq_entries
        let cq_entries := roundup_pow2 ce1
        if cq_entries < entries then (-EINVAL, sq, cq, p)
        else (0, entries, cq_entries, p)
    else (0, entries, 2 * entries, p)

/-! ### Properties of the bit helpers -/

theorem flsAux_spec : ∀ (fuel x : Nat), x < 2 ^ fuel →
    x < 2 ^ flsAux fuel x ∧ ∀ j, x < 2 ^ j → flsAux fuel x ≤ j := by
  intro fuel
  induction fuel with
  | zero =>
    intro x hx
    interval_cases x
    exact ⟨by norm_num, fun j _ => Nat.zero_le j⟩
  | succ fuel ih =>
    intro x hx
    match x with
    | 0 => exact ⟨by norm_num [flsAux], fun j _ => by simp [flsAux]⟩
    | y + 1 =>
      have hdiv : (y + 1) / 2 < 2 ^ fuel := by
        have h2 : y + 1 < 2 * 2 ^ fuel := by
          rw [pow_succ] at hx
          omega
        omega
      obtain ⟨h1, h2⟩ := ih ((y + 1) / 2) hdiv
      constructor
      · show y + 1 < 2 ^ (flsAux fuel ((y + 1) / 2) + 1)
        rw [pow_succ]
        omega
      · intro j hj
        have hj1 : 1 ≤ j := by
          by_contra hc
          push_neg at hc
          interval_cases j
          omega
        have hdj : (y + 1) / 2 < 2 ^ (j - 1) := by
          have : y + 1 < 2 * 2 ^ (j - 1) := by
            have hrw : 2 * 2 ^ (j - 1) = 2 ^ j := by
              rw [← pow_succ']
              congr 1
              omega
            omega
          omega
        have := h2 (j - 1) hdj
        show flsAux fuel ((y + 1) / 2) + 1 ≤ j
        omega

theorem fls_spec (q : Nat) (hq : q < 2 ^ 64) :
    q < 2 ^ fls q ∧ ∀ j, q < 2 ^ j → fls q ≤ j :=
  flsAux_spec 64 q hq

theorem fls_le_of_lt_pow {q j : Nat} (hq : q < 2 ^ 64) (h : q < 2 ^ j) : fls q ≤ j :=
  (fls_spec q hq).2 j h

/-- For depths actually produced inside setup.c (between 1 and `2^31`),
the `unsigned` wrap in `roundup_pow2` vanishes and the result is
`2 ^ fls (d - 1)`. -/
theorem roundup_pow2_eq {d : Nat} (h1 : 1 ≤ d) (h2 : d ≤ 2 ^ 31) :
    roundup_pow2 d = 2 ^ fls (d - 1) := by
  unfold roundup_pow2
  have hU : U32 = 4294967296 := rfl
  have hrw : d + (U32 - 1) = (d - 1) + 1 * U32 := by omega
  rw [hrw, Nat.add_mul_mod_self_right]
  have hd1 : d - 1 < U32 := by omega
  rw [Nat.mod_eq_of_lt hd1]
  have hfls : fls (d - 1) ≤ 31 := fls_le_of_lt_pow (by norm_num; omega) (by omega)
  have hpow : 2 ^ fls (d - 1) < U32 := by
    calc 2 ^ fls (d - 1) ≤ 2 ^ 31 := Nat.pow_le_pow_right (by norm_num) hfls
    _ < U32 := by norm_num [U32]
  rw [Nat.shiftLeft_eq, one_mul, Nat.mod_eq_of_lt hpow]

/-- `roundup_pow2 d` is the least power of two that is at least `d`,
for the depths setup.c feeds it. -/
theorem roundup_pow2_least {d : Nat} (h1 : 1 ≤ d) (h2 : d ≤ 2 ^ 31) :
    d ≤ roundup_pow2 d ∧ (∃ k, roundup_pow2 d = 2 ^ k) ∧
      ∀ j, d ≤ 2 ^ j → roundup_pow2 d ≤ 2 ^ j := by
  rw [roundup_pow2_eq h1 h2]
  refine ⟨?_, ⟨fls (d - 1), rfl⟩, ?_⟩
  · have := (fls_spec (d - 1) (by norm_num; omega)).1
    omega
  · intro j hj
    have : d - 1 < 2 ^ j := by omega
    exact Nat.pow_le_pow_right (by norm_num) (fls_le_of_lt_pow (by norm_num; omega) this)

/-! ### Concrete sample inputs used by witnesses -/

def sqOff0 : SqOff :=
  { head := 0, tail := 4, ring_mask := 16, ring_entries := 24, flags := 36,
    dropped := 40, arr := 128, user_addr := 0 }

def cqOff0 : CqOff :=
  { head := 8, tail := 12, ring_mask := 20, ring_entries := 28, overflow := 44,
    cqes := 64, flags := 48, user_addr := 0 }

def p0 : Params :=
  { flags := 0, sq_entries := 0, cq_entries := 0, features_single_mmap := false,
    features_native_workers := false, sq_off := sqOff0, cq_off := cqOff0 }

/-! ### Depth negotiation: characterization lemmas -/

/-- On any successful run, the result has the following shape: the
submission depth is `roundup_pow2` of the (possibly clamped) request
`e1 ∈ [1, 32768]`, and the completion depth is either `2 *` that (no
explicit CQ size) or `roundup_pow2` of a clamped explicit request
`c1 ∈ [1, 65536]` that the code checked to be no smaller. -/
theorem get_sq_cq_entries_ok_shape (e : Nat) (p : Params) (sq cq : Nat)
    (h : (get_sq_cq_entries e p sq cq).1 = 0) :
    ∃ e1, e1 = (if KERN_MAX_ENTRIES < e then KERN_MAX_ENTRIES else e) ∧
      1 ≤ e1 ∧ e1 ≤ KERN_MAX_ENTRIES ∧
      ((p.flags &&& IORING_SETUP_CQSIZE = 0 ∧
        get_sq_cq_entries e p sq cq = (0, roundup_pow2 e1, 2 * roundup_pow2 e1, p)) ∨
       (p.flags &&& IORING_SETUP_CQSIZE ≠ 0 ∧
        ∃ c1, 1 ≤ c1 ∧ c1 ≤ KERN_MAX_CQ_ENTRIES ∧
          roundup_pow2 e1 ≤ roundup_pow2 c1 ∧
          get_sq_cq_entries e p sq cq = (0, roundup_pow2 e1, roundup_pow2 c1, p))) := by
  simp only [get_sq_cq_entries] at h ⊢
  by_cases hA : e = 0
  · rw [if_pos hA] at h
    simp [EINVAL] at h
  rw [if_neg hA] at h ⊢
  by_cases hB : KERN_MAX_ENTRIES < e ∧ p.flags &&& IORING_SETUP_CLAMP = 0
  · rw [if_pos hB] at h
    simp [EINVAL] at h
  rw [if_neg hB] at h ⊢
  set e1 := if KERN_MAX_ENTRIES < e then KERN_MAX_ENTRIES else e with he1
  have he1a : 1 ≤ e1 := by
    rw [he1]
    split
    · decide
    · omega
  have he1b : e1 ≤ KERN_MAX_ENTRIES := by
    rw [he1]
    split
    · exact Nat.le_refl _
    · omega
  refine ⟨e1, rfl, he1a, he1b, ?_⟩
  by_cases hC : p.flags &&& IORING_SETUP_CQSIZE = 0
  · rw [if_neg (not_not_intro hC)] at h ⊢
    exact Or.inl ⟨hC, rfl⟩
  · rw [if_pos hC] at h ⊢
    by_cases hD : p.cq_entries = 0
    · rw [if_pos hD] at h
      simp [EINVAL] at h
    rw [if_neg hD] at h ⊢
    by_cases hE : KERN_MAX_CQ_ENTRIES < p.cq_entries ∧ p.flags &&& IORING_SETUP_CLAMP = 0
    · rw [if_pos hE] at h
      simp [EINVAL] at h
    rw [if_neg hE] at h ⊢
    set c1 := if KERN_MAX_CQ_ENTRIES < p.cq_entries then KERN_MAX_CQ_ENTRIES
              else p.cq_entries with hc1
    by_cases hG : roundup_pow2 c1 < roundup_pow2 e1
    · rw [if_pos hG] at h
      simp [EINVAL] at h
    rw [if_neg hG] at h ⊢
    have hc1a : 1 ≤ c1 := by
      rw [hc1]
      split
      · decide
      · omega
    have hc1b : c1 ≤ KERN_MAX_CQ_ENTRIES := by
      rw [hc1]
      split
      · exact Nat.le_refl _
      · omega
    exact Or.inr ⟨hC, c1, hc1a, hc1b, by omega, rfl⟩

/-- C3: depth negotiation rejects a zero request with `-EINVAL`; rejects a
request above the 32768 kernel ceiling with `-EINVAL` when the clamp flag
is unset, and with the clamp flag behaves exactly as a request of 32768;
and for `1 ≤ d ≤ 32768`, any successful negotiation returns as submission
depth the least power of two that is `≥ d`. -/
theorem get_sq_cq_entries_depth_rules (p : Params) (sq cq d : Nat)
    (hd1 : 1 ≤ d) (hd2 : d ≤ KERN_MAX_ENTRIES) :
    (get_sq_cq_entries 0 p sq cq).1 = -EINVAL ∧
    (∀ e, KERN_MAX_ENTRIES < e → p.flags &&& IORING_SETUP_CLAMP = 0 →
      (get_sq_cq_entries e p sq cq).1 = -EINVAL) ∧
    (∀ e, KERN_MAX_ENTRIES < e → p.flags &&& IORING_SETUP_CLAMP ≠ 0 →
      get_sq_cq_entries e p sq cq = get_sq_cq_entries KERN_MAX_ENTRIES p sq cq) ∧
    ((get_sq_cq_entries d p sq cq).1 = 0 →
      d ≤ (get_sq_cq_entries d p sq cq).2.1 ∧
      (∃ k, (get_sq_cq_entries d p sq cq).2.1 = 2 ^ k) ∧
      ∀ j, d ≤ 2 ^ j → (get_sq_cq_entries d p sq cq).2.1 ≤ 2 ^ j) := by
  refine ⟨by unfold get_sq_cq_entries; simp, ?_, ?_, ?_⟩
  · intro e he hc
    unfold get_sq_cq_entries
    have he0 : ¬(e = 0) := by omega
    simp [he0, he, hc]
  · intro e he hc
    unfold get_sq_cq_entries
    have he0 : ¬(e = 0) := by omega
    have hK : ¬(KERN_MAX_ENTRIES = 0) := by decide
    have hKK : ¬(KERN_MAX_ENTRIES < KERN_MAX_ENTRIES) := by omega
    simp [he0, he, hc, hK, hKK]
  · intro h
    obtain ⟨e1, he1, h1, h2, hcase⟩ := get_sq_cq_entries_ok_shape d p sq cq h
    have hlt : ¬(KERN_MAX_ENTRIES < d) := by omega
    rw [if_neg hlt] at he1
    rw [he1] at hcase
    have hle : d ≤ 2 ^ 31 := by
      have : KERN_MAX_ENTRIES ≤ 2 ^ 31 := by decide
      omega
    have hr := roundup_pow2_least hd1 hle
    rcases hcase with ⟨-, heq⟩ | ⟨-, c1, -, -, -, heq⟩ <;> rw [heq] <;>
      exact ⟨hr.1, hr.2.1, hr.2.2⟩

/-- C3 witness: the depth rules applied at `d = 5` with default flags. -/
theorem get_sq_cq_entries_depth_rules_witness :
    (1 ≤ 5 ∧ 5 ≤ KERN_MAX_ENTRIES) ∧
    (get_sq_cq_entries 0 p0 0 0).1 = -EINVAL ∧
    ((get_sq_cq_entries 5 p0 0 0).1 = 0 → 5 ≤ (get_sq_cq_entries 5 p0 0 0).2.1) :=
  ⟨⟨by decide, by decide⟩,
   (get_sq_cq_entries_depth_rules p0 0 0 5 (by decide) (by decide)).1,
   fun h => ((get_sq_cq_entries_depth_rules p0 0 0 5 (by decide) (by decide)).2.2.2 h).1⟩

/-- C4: every successful negotiation yields a power-of-two submission
depth and a power-of-two completion depth with `cq ≥ sq`; when no
explicit completion size was requested (`IORING_SETUP_CQSIZE` unset),
`cq = 2 * sq` exactly. -/
theorem get_sq_cq_entries_invariants (e : Nat) (p : Params) (sq cq : Nat)
    (h : (get_sq_cq_entries e p sq cq).1 = 0) :
    ((∃ k, (get_sq_cq_entries e p sq cq).2.1 = 2 ^ k) ∧
     (∃ k, (get_sq_cq_entries e p sq cq).2.2.1 = 2 ^ k) ∧
     (get_sq_cq_entries e p sq cq).2.1 ≤ (get_sq_cq_entries e p sq cq).2.2.1) ∧
    (p.flags &&& IORING_SETUP_CQSIZE = 0 →
      (get_sq_cq_entries e p sq cq).2.2.1 = 2 * (get_sq_cq_entries e p sq cq).2.1) := by
  obtain ⟨e1, -, h1, h2, hcase⟩ := get_sq_cq_entries_ok_shape e p sq cq h
  have he31 : e1 ≤ 2 ^ 31 := by
    have : KERN_MAX_ENTRIES ≤ 2 ^ 31 := by decide
    omega
  have hrE := roundup_pow2_least h1 he31
  rcases hcase with ⟨hflag, heq⟩ | ⟨hflag, c1, hc1, hc2, hle, heq⟩
  · rw [heq]
    obtain ⟨k, hk⟩ := hrE.2.1
    exact ⟨⟨⟨k, hk⟩, ⟨k + 1, by rw [hk]; ring⟩,
      show roundup_pow2 e1 ≤ 2 * roundup_pow2 e1 by omega⟩, fun _ => rfl⟩
  · have hc31 : c1 ≤ 2 ^ 31 := by
      have : KERN_MAX_CQ_ENTRIES ≤ 2 ^ 31 := by decide
      omega
    have hrC := roundup_pow2_least hc1 hc31
    rw [heq]
    exact ⟨⟨hrE.2.1, hrC.2.1, hle⟩, fun hcontra => absurd hcontra hflag⟩

/-- C4 witness: at `e = 100` with default flags the invariants hold. -/
theorem get_sq_cq_entries_invariants_witness :
    (get_sq_cq_entries 100 p0 0 0).1 = 0 ∧
    (∃ k, (get_sq_cq_entries 100 p0 0 0).2.1 = 2 ^ k) ∧
    (get_sq_cq_entries 100 p0 0 0).2.2.1 = 2 * (get_sq_cq_entries 100 p0 0 0).2.1 :=
  ⟨by decide,
   ((get_sq_cq_entries_invariants 100 p0 0 0 (by decide)).1).1,
   (get_sq_cq_entries_invariants 100 p0 0 0 (by decide)).2 (by decide)⟩

/-- C10: a failed negotiation writes neither out-parameter and leaves the
params structure unchanged: on any negative return, the returned `*sq`,
`*cq` and `*p` equal the values passed in. -/
theorem get_sq_cq_entries_error_frame (e : Nat) (p : Params) (sq cq : Nat)
    (h : (get_sq_cq_entries e p sq cq).1 < 0) :
    (get_sq_cq_entries e p sq cq).2.1 = sq ∧
    (get_sq_cq_entries e p sq cq).2.2.1 = cq ∧
    (get_sq_cq_entries e p sq cq).2.2.2 = p := by
  simp only [get_sq_cq_entries] at h ⊢
  split_ifs at h ⊢ <;> simp_all [EINVAL]

/-- C10 witness: the zero-depth failure leaves the caller's state intact. -/
theorem get_sq_cq_entries_error_frame_witness :
    (get_sq_cq_entries 0 p0 7 9).1 < 0 ∧
    (get_sq_cq_entries 0 p0 7 9).2.1 = 7 ∧
    (get_sq_cq_entries 0 p0 7 9).2.2.1 = 9 ∧
    (get_sq_cq_entries 0 p0 7 9).2.2.2 = p0 :=
  ⟨by decide,
   (get_sq_cq_entries_error_frame 0 p0 7 9 (by decide)).1,
   (get_sq_cq_entries_error_frame 0 p0 7 9 (by decide)).2.1,
   (get_sq_cq_entries_error_frame 0 p0 7 9 (by decide)).2.2⟩

/-! ### Layout Calculator (`rings_size`, `npages`) -/

/-- Modulus of the C `size_t` type. -/
def U64 : Nat := 18446744073709551616

/-- `npages`: `size--; size /= page_size; return __fls(size);` with
`size_t` arithmetic, so the decrement wraps modulo `2^64` (its callers
always pass `size ≥ 1`, where no wrap occurs). -/
def npages (size page_size : Nat) : Nat :=
  fls (((size + (U64 - 1)) % U64) / page_size)

/-- `(x + 63) & ~63UL`, for the sub-`2^64` values arising here. -/
def align64 (x : Nat) : Nat := (x + 63) - (x + 63) % 64

/-- `rings_size`: completion-ring bytes are a 320-byte header plus the
completion-entry array, rounded to a 64-byte boundary; each region
contributes `1 << npages(...)` pages and the total is pages times page
size. -/
def rings_size (entries cq_entries page_size : Nat) : Nat :=
  let cq_size0 := KRING_SIZE + cq_entries * SIZEOF_CQE
  let cq_size := align64 cq_size0
  let pages0 := 1 <<< npages cq_size page_size
  let sq_size := SIZEOF_SQE * entries
  let pages := pages0 + 1 <<< npages sq_size page_size
  pages * page_size

/-- Layout Calculator as claim C7 reads it: each region size is rounded
up to a whole number of pages and the total is the sum of the two page
counts times the page size. This follows the claim wording, for
comparison against `rings_size` (which rounds each page count up to a
power of two). -/
def rings_size_per_claim (entries cq_entries page_size : Nat) : Nat :=
  let cq_size := align64 (KRING_SIZE + cq_entries * SIZEOF_CQE)
  let cq_pages := (cq_size + page_size - 1) / page_size
  let sq_pages := (SIZEOF_SQE * entries + page_size - 1) / page_size
  (cq_pages + sq_pages) * page_size

/-- C7 counterexample: at the spec's own reference scenario (negotiated
depths 1024/2048, page size 4096) the code returns 131072 bytes while
the claimed "sum of whole-page counts" formula gives 102400 bytes: the
code rounds each region's page count up to a power of two, not merely
up to whole pages. -/
theorem rings_size_counterexample :
    rings_size 1024 2048 4096 = 131072 ∧
    rings_size_per_claim 1024 2048 4096 = 102400 ∧
    rings_size 1024 2048 4096 ≠ rings_size_per_claim 1024 2048 4096 := by
  exact ⟨by decide, by decide, by decide⟩

/-- `P` is the least power of two that is at least `n`. -/
def isLeastPow2Ge (P n : Nat) : Prop :=
  (∃ k, P = 2 ^ k) ∧ n ≤ P ∧ ∀ j, n ≤ 2 ^ j → P ≤ 2 ^ j

theorem shift_fls_least (q : Nat) (hq : q < 2 ^ 64) : isLeastPow2Ge (2 ^ fls q) (q + 1) :=
  ⟨⟨fls q, rfl⟩, (fls_spec q hq).1,
   fun _ hj => Nat.pow_le_pow_right (by norm_num) (fls_le_of_lt_pow hq (by omega))⟩

theorem npages_eq {s : Nat} (p : Nat) (hs : 1 ≤ s) (hsU : s < U64) :
    npages s p = fls ((s - 1) / p) := by
  unfold npages
  have hU : U64 = 18446744073709551616 := rfl
  have h1 : s + (U64 - 1) = (s - 1) + 1 * U64 := by omega
  rw [h1, Nat.add_mul_mod_self_right, Nat.mod_eq_of_lt (by omega)]

theorem succ_div_eq_ceil {s p : Nat} (hs : 1 ≤ s) (hp : 0 < p) :
    (s - 1) / p + 1 = (s + p - 1) / p := by
  have h1 : s + p - 1 = (s - 1) + p := by omega
  rw [h1, Nat.add_div_right _ hp]

/-- C7 (amended): `rings_size` returns `(P1 + P2) * page_size` where
`P1` is the least power of two at least the number of whole pages
covering the completion region (320-byte header plus completion-entry
array, 64-byte aligned), and `P2` is the least power of two at least the
number of whole pages covering the submission-entry array: the page
counts are rounded up to powers of two, not merely to whole pages. -/
theorem rings_size_amended (entries cq_entries page_size : Nat)
    (hp : 0 < page_size) (he : 0 < entries)
    (he2 : entries < U32) (hc2 : cq_entries < U32) :
    ∃ P1 P2,
      rings_size entries cq_entries page_size = (P1 + P2) * page_size ∧
      isLeastPow2Ge P1
        ((align64 (KRING_SIZE + cq_entries * SIZEOF_CQE) + page_size - 1) / page_size) ∧
      isLeastPow2Ge P2 ((SIZEOF_SQE * entries + page_size - 1) / page_size) := by
  have hU32 : U32 = 4294967296 := rfl
  have hU64 : U64 = 18446744073709551616 := rfl
  have hKR : KRING_SIZE = 320 := rfl
  have hCQE : SIZEOF_CQE = 16 := rfl
  have hSQE : SIZEOF_SQE = 64 := rfl
  have hcs1 : 1 ≤ align64 (KRING_SIZE + cq_entries * SIZEOF_CQE) := by
    rw [hKR, hCQE]
    unfold align64
    omega
  have hcsU : align64 (KRING_SIZE + cq_entries * SIZEOF_CQE) < U64 := by
    rw [hKR, hCQE, hU64]
    unfold align64
    omega
  have hss1 : 1 ≤ SIZEOF_SQE * entries := by
    rw [hSQE]
    omega
  have hssU : SIZEOF_SQE * entries < U64 := by
    rw [hSQE, hU64]
    omega
  refine ⟨2 ^ fls ((align64 (KRING_SIZE + cq_entries * SIZEOF_CQE) - 1) / page_size),
    2 ^ fls ((SIZEOF_SQE * entries - 1) / page_size), ?_, ?_, ?_⟩
  · simp only [rings_size]
    rw [npages_eq page_size hcs1 hcsU, npages_eq page_size hss1 hssU,
      Nat.shiftLeft_eq, Nat.shiftLeft_eq, one_mul, one_mul]
  · rw [← succ_div_eq_ceil hcs1 hp]
    refine shift_fls_least _ ?_
    calc (align64 (KRING_SIZE + cq_entries * SIZEOF_CQE) - 1) / page_size
        ≤ align64 (KRING_SIZE + cq_entries * SIZEOF_CQE) - 1 := Nat.div_le_self _ _
      _ < 2 ^ 64 := by
        have h64 : (2 : Nat) ^ 64 = U64 := by norm_num [U64]
        rw [h64]
        omega
  · rw [← succ_div_eq_ceil hss1 hp]
    refine shift_fls_least _ ?_
    calc (SIZEOF_SQE * entries - 1) / page_size
        ≤ SIZEOF_SQE * entries - 1 := Nat.div_le_self _ _
      _ < 2 ^ 64 := by
        have h64 : (2 : Nat) ^ 64 = U64 := by norm_num [U64]
        rw [h64]
        omega

/-- C7 amended-claim witness: the amended description applied at the
spec's reference scenario (1024 entries, 2048 cq entries, 4096 pages). -/
theorem rings_size_amended_witness :
    (0 < 4096 ∧ 0 < 1024 ∧ 1024 < U32 ∧ 2048 < U32) ∧
    (∃ P1 P2,
      rings_size 1024 2048 4096 = (P1 + P2) * 4096 ∧
      isLeastPow2Ge P1 ((align64 (KRING_SIZE + 2048 * SIZEOF_CQE) + 4096 - 1) / 4096) ∧
      isLeastPow2Ge P2 ((SIZEOF_SQE * 1024 + 4096 - 1) / 4096)) :=
  ⟨⟨by decide, by decide, by decide, by decide⟩,
   rings_size_amended 1024 2048 4096 (by decide) (by decide) (by decide) (by decide)⟩

/-! ### Memlock Budget Estimator (`io_uring_mlock_size_params`)

The routine first creates and destroys a throwaway probe ring purely to
read the kernel's feature bits; that kernel interaction is external, so
the embedding takes the probe outcome as a parameter: `.error e` when
the probe-ring creation failed (the local params stay zeroed, so no
feature bit is seen) and `.ok nw` when it succeeded and reported
`IORING_FEAT_NATIVE_WORKERS = nw`. The locals `sq`/`cq_entries` are
uninitialized in C and only read after a successful negotiation; the
embedding passes `0` for their initial values. -/

def io_uring_mlock_size_params (probe : Except Int Bool) (entries0 : Nat)
    (p : Params) (page_size : Nat) : Int :=
  let native_workers := match probe with
    | .ok nw => nw
    | .error _ => false
  if native_workers then 0
  else if entries0 = 0 then -EINVAL
  else if KERN_MAX_ENTRIES < entries0 ∧ p.flags &&& IORING_SETUP_CLAMP = 0 then -EINVAL
  else
    let entries := if KERN_MAX_ENTRIES < entries0 then KERN_MAX_ENTRIES else entries0
    let r := get_sq_cq_entries entries p 0 0
    if r.1 ≠ 0 then r.1
    else ((rings_size r.2.1 r.2.2.1 page_size : Nat) : Int)

/-- With the clamp flag set, an over-ceiling request negotiates exactly
like a request of the ceiling itself. -/
theorem get_sq_cq_entries_clamp_eq (e : Nat) (p : Params) (sq cq : Nat)
    (he : KERN_MAX_ENTRIES < e) (hc : p.flags &&& IORING_SETUP_CLAMP ≠ 0) :
    get_sq_cq_entries e p sq cq = get_sq_cq_entries KERN_MAX_ENTRIES p sq cq := by
  simp only [get_sq_cq_entries]
  have he0 : ¬(e = 0) := by omega
  have hK : ¬(KERN_MAX_ENTRIES = 0) := by decide
  have hKK : ¬(KERN_MAX_ENTRIES < KERN_MAX_ENTRIES) := by omega
  simp [he0, he, hc, hK, hKK]

/-- Core of the estimator when the probe reported no feature bits: it
agrees with running depth negotiation directly on the request and, on
success, pricing the negotiated depths with `rings_size`. -/
theorem io_uring_mlock_size_params_ok_false (entries : Nat) (p : Params)
    (page_size : Nat) :
    io_uring_mlock_size_params (.ok false) entries p page_size =
      (if (get_sq_cq_entries entries p 0 0).1 ≠ 0 then (get_sq_cq_entries entries p 0 0).1
       else ((rings_size (get_sq_cq_entries entries p 0 0).2.1
                (get_sq_cq_entries entries p 0 0).2.2.1 page_size : Nat) : Int)) := by
  simp only [io_uring_mlock_size_params]
  rw [if_neg (by simp)]
  by_cases hA : entries = 0
  · subst hA
    simp [get_sq_cq_entries, EINVAL]
  rw [if_neg hA]
  by_cases hB : KERN_MAX_ENTRIES < entries ∧ p.flags &&& IORING_SETUP_CLAMP = 0
  · rw [if_pos hB]
    have hval : (get_sq_cq_entries entries p 0 0).1 = -EINVAL := by
      simp only [get_sq_cq_entries]
      rw [if_neg hA, if_pos hB]
    rw [hval]
    simp [EINVAL]
  · rw [if_neg hB]
    by_cases hC : KERN_MAX_ENTRIES < entries
    · have hc : p.flags &&& IORING_SETUP_CLAMP ≠ 0 := by
        intro h0
        exact hB ⟨hC, h0⟩
      rw [if_pos hC, ← get_sq_cq_entries_clamp_eq entries p 0 0 hC hc]
    · rw [if_neg hC]

/-- C8: the memlock budget estimator returns exactly 0 whenever the
throwaway-ring probe reports `IORING_FEAT_NATIVE_WORKERS`; otherwise it
returns the byte count of `rings_size` on the negotiated depths, failing
with `-EINVAL` exactly when depth negotiation fails; and a failure to
create the probe ring is never propagated — it behaves exactly like a
probe that reported no feature bits. -/
theorem io_uring_mlock_size_params_spec (probe : Except Int Bool) (entries : Nat)
    (p : Params) (page_size : Nat) :
    (probe = .ok true → io_uring_mlock_size_params probe entries p page_size = 0) ∧
    (probe ≠ .ok true →
      io_uring_mlock_size_params probe entries p page_size =
        (if (get_sq_cq_entries entries p 0 0).1 ≠ 0 then (get_sq_cq_entries entries p 0 0).1
         else ((rings_size (get_sq_cq_entries entries p 0 0).2.1
                  (get_sq_cq_entries entries p 0 0).2.2.1 page_size : Nat) : Int))) ∧
    (∀ err, io_uring_mlock_size_params (.error err) entries p page_size =
      io_uring_mlock_size_params (.ok false) entries p page_size) := by
  refine ⟨?_, ?_, fun err => rfl⟩
  · intro hp
    subst hp
    rfl
  · intro hprobe
    rcases probe with err | b
    · exact io_uring_mlock_size_params_ok_false entries p page_size
    · cases b
      · exact io_uring_mlock_size_params_ok_false entries p page_size
      · exact absurd rfl hprobe

/-- Concrete negotiation of the spec's reference scenario: a request of
1024 with default flags yields depths 1024/2048. -/
theorem get_sq_cq_entries_1024_eval :
    get_sq_cq_entries 1024 p0 0 0 = (0, 1024, 2048, p0) := by
  have h1 : ¬((1024 : Nat) = 0) := by norm_num
  have h2 : ¬(KERN_MAX_ENTRIES < 1024 ∧ p0.flags &&& IORING_SETUP_CLAMP = 0) := by
    norm_num [KERN_MAX_ENTRIES]
  have h3 : ¬(p0.flags &&& IORING_SETUP_CQSIZE ≠ 0) := by
    norm_num [p0, IORING_SETUP_CQSIZE]
  have h4 : (if KERN_MAX_ENTRIES < 1024 then KERN_MAX_ENTRIES else 1024) = 1024 := by
    norm_num [KERN_MAX_ENTRIES]
  have h5 : roundup_pow2 1024 = 1024 := by decide
  simp only [get_sq_cq_entries]
  rw [if_neg h1, if_neg h2, if_neg h3, h4, h5]

/-- C8 witness: with the native-workers bit reported the estimate is 0;
a failed probe behaves exactly like a featureless probe; and at the
spec's reference scenario (1024 entries, default flags, 4096-byte pages)
the estimate equals `rings_size` on the negotiated depths 1024/2048. -/
theorem io_uring_mlock_size_params_spec_witness :
    io_uring_mlock_size_params (.ok true) 1024 p0 4096 = 0 ∧
    io_uring_mlock_size_params (.error (-11)) 1024 p0 4096 =
      io_uring_mlock_size_params (.ok false) 1024 p0 4096 ∧
    io_uring_mlock_size_params (.ok false) 1024 p0 4096 =
      ((rings_size 1024 2048 4096 : Nat) : Int) :=
  ⟨(io_uring_mlock_size_params_spec (.ok true) 1024 p0 4096).1 rfl,
   (io_uring_mlock_size_params_spec (.error (-11)) 1024 p0 4096).2.2 (-11),
   by
    rw [(io_uring_mlock_size_params_spec (.ok false) 1024 p0 4096).2.1 (by simp),
      get_sq_cq_entries_1024_eval]
    norm_num⟩

/-! ### Resource events and ring views

The external primitives `uring_mmap`, `uring_munmap` and `uring_close`
are modeled by an event trace; each fallible `uring_mmap` call site takes
an oracle `Except Int Nat` (`.error e` for an `IS_ERR` result with
`PTR_ERR` value `e`, `.ok a` for a returned address `a`). Pointers are
addresses (`Nat`), with `0` for `NULL`. -/

inductive Ev where
  | mmap (addr size offset : Nat) (shared populate : Bool)
  | munmap (addr size : Nat)
  | close (fd : Int)
deriving Repr, DecidableEq

/-- Fields of `struct io_uring_sq` touched by setup.c (the submit-path
cursors `sqe_head`/`sqe_tail` are only ever zeroed there and are
omitted). -/
structure SqState where
  khead : Nat
  ktail : Nat
  kring_mask : Nat
  kring_entries : Nat
  kflags : Nat
  kdropped : Nat
  arr : Nat
  sqes : Nat
  ring_sz : Nat
  ring_ptr : Nat
deriving Repr, DecidableEq

/-- Fields of `struct io_uring_cq` touched by setup.c. -/
structure CqState where
  khead : Nat
  ktail : Nat
  kring_mask : Nat
  kring_entries : Nat
  kflags : Nat
  koverflow : Nat
  cqes : Nat
  ring_sz : Nat
  ring_ptr : Nat
deriving Repr, DecidableEq

def SqState.zero : SqState :=
  { khead := 0, ktail := 0, kring_mask := 0, kring_entries := 0, kflags := 0,
    kdropped := 0, arr := 0, sqes := 0, ring_sz := 0, ring_ptr := 0 }

def CqState.zero : CqState :=
  { khead := 0, ktail := 0, kring_mask := 0, kring_entries := 0, kflags := 0,
    koverflow := 0, cqes := 0, ring_sz := 0, ring_ptr := 0 }

/-- `io_uring_unmap_rings`: unmap the submission ring when it has a
recorded size, and the completion ring when it is present, has a size,
and is not the same mapping as the submission ring. -/
def io_uring_unmap_rings (sq : SqState) (cq : CqState) : List Ev :=
  (if sq.ring_sz ≠ 0 then [Ev.munmap sq.ring_ptr sq.ring_sz] else []) ++
  (if cq.ring_ptr ≠ 0 ∧ cq.ring_sz ≠ 0 ∧ cq.ring_ptr ≠ sq.ring_ptr then
    [Ev.munmap cq.ring_ptr cq.ring_sz] else [])

/-- `io_uring_setup_ring_pointers`: resolve every named field pointer by
adding its kernel-supplied offset to the owning region's base; the
completion ring's runtime-flags pointer is resolved only when the offset
table marks it present (nonzero). -/
def io_uring_setup_ring_pointers (p : Params) (sq : SqState) (cq : CqState) :
    SqState × CqState :=
  ({ sq with
      khead := sq.ring_ptr + p.sq_off.head,
      ktail := sq.ring_ptr + p.sq_off.tail,
      kring_mask := sq.ring_ptr + p.sq_off.ring_mask,
      kring_entries := sq.ring_ptr + p.sq_off.ring_entries,
      kflags := sq.ring_ptr + p.sq_off.flags,
      kdropped := sq.ring_ptr + p.sq_off.dropped,
      arr := sq.ring_ptr + p.sq_off.arr },
   { cq with
      khead := cq.ring_ptr + p.cq_off.head,
      ktail := cq.ring_ptr + p.cq_off.tail,
      kring_mask := cq.ring_ptr + p.cq_off.ring_mask,
      kring_entries := cq.ring_ptr + p.cq_off.ring_entries,
      koverflow := cq.ring_ptr + p.cq_off.overflow,
      cqes := cq.ring_ptr + p.cq_off.cqes,
      kflags := if p.cq_off.flags ≠ 0 then cq.ring_ptr + p.cq_off.flags
                else cq.kflags })

/-- Tail of `io_uring_mmap` after the ring region(s) were mapped: map
the submission-entry array (unwinding the ring mappings on failure),
then resolve all field pointers. -/
def io_uring_mmap_sqes (p : Params) (sq : SqState) (cq : CqState)
    (ev : List Ev) (msqes : Except Int Nat) : Int × SqState × CqState × List Ev :=
  match msqes with
  | .error e => (e, sq, cq, ev ++ io_uring_unmap_rings sq cq)
  | .ok a3 =>
    let sq := { sq with sqes := a3 }
    let st := io_uring_setup_ring_pointers p sq cq
    (0, st.1, st.2,
      ev ++ [Ev.mmap a3 (p.sq_entries * SIZEOF_SQE) IORING_OFF_SQES true true])

/-- `io_uring_mmap`: compute both ring sizes from the offset table; when
the kernel reports `IORING_FEAT_SINGLE_MMAP`, promote both sizes to the
larger one, map once at the submission-ring offset and alias the
completion base to it; otherwise map each ring independently (shared,
populate-on-map); then map the submission-entry array; each failure
unwinds via `io_uring_unmap_rings` and returns the mapping error. On an
`IS_ERR` result the C code leaves the error-encoded (never read) value
in the pointer field; the model leaves the previous field value, except
that a failed completion-ring mapping sets that pointer to `NULL` as the
code does before its unwind. -/
def io_uring_mmap (fd : Int) (p : Params) (sq0 : SqState) (cq0 : CqState)
    (msq mcq msqes : Except Int Nat) : Int × SqState × CqState × List Ev :=
  let sq1 := { sq0 with ring_sz := p.sq_off.arr + p.sq_entries * SIZEOF_UNSIGNED }
  let cq1 := { cq0 with ring_sz := p.cq_off.cqes + p.cq_entries * SIZEOF_CQE }
  let sq2 := if p.features_single_mmap ∧ sq1.ring_sz < cq1.ring_sz then
               { sq1 with ring_sz := cq1.ring_sz } else sq1
  let cq2 := if p.features_single_mmap then { cq1 with ring_sz := sq2.ring_sz } else cq1
  match msq with
  | .error e => (e, sq2, cq2, [])
  | .ok a =>
    let sq3 := { sq2 with ring_ptr := a }
    let ev0 := [Ev.mmap a sq3.ring_sz IORING_OFF_SQ_RING true true]
    if p.features_single_mmap then
      io_uring_mmap_sqes p sq3 { cq2 with ring_ptr := sq3.ring_ptr } ev0 msqes
    else
      match mcq with
      | .error e =>
        let cq3 := { cq2 with ring_ptr := 0 }
        (e, sq3, cq3, ev0 ++ io_uring_unmap_rings sq3 cq3)
      | .ok a2 =>
        io_uring_mmap_sqes p sq3 { cq2 with ring_ptr := a2 }
          (ev0 ++ [Ev.mmap a2 cq2.ring_sz IORING_OFF_CQ_RING true true]) msqes

/-- The ring-region mapping calls of a trace (offset `IORING_OFF_SQ_RING`
or `IORING_OFF_CQ_RING`, excluding the sqe-array mapping). -/
def ringRegionMaps (evs : List Ev) : List Ev :=
  evs.filter fun e => match e with
    | Ev.mmap _ _ off _ _ =>
        off == IORING_OFF_SQ_RING || off == IORING_OFF_CQ_RING
    | _ => false

/-- The (address, size) pairs of all successful mapping calls. -/
def mmapped (evs : List Ev) : List (Nat × Nat) :=
  evs.filterMap fun e => match e with
    | Ev.mmap a s _ _ _ => some (a, s)
    | _ => none

/-- The (address, size) pairs of all unmapping calls. -/
def munmapped (evs : List Ev) : List (Nat × Nat) :=
  evs.filterMap fun e => match e with
    | Ev.munmap a s => some (a, s)
    | _ => none

theorem max_eq_ite_lt (a b : Nat) : max a b = if a < b then b else a := by
  rw [Nat.max_def]
  split
  · split <;> omega
  · split <;> omega

/-- C5: when the kernel reports `IORING_FEAT_SINGLE_MMAP` and the ring
mapping call returns address `a`, the call performs exactly one
ring-region mapping — at the submission offset, sized to the larger of
the two computed ring sizes — the completion base is set equal to the
submission base, and both recorded ring sizes equal that larger size;
without the capability and with both ring mappings returning `a` and
`b`, exactly two independent shared populate-on-map ring-region mappings
are performed, one per ring, each with its own computed size. -/
theorem io_uring_mmap_merged (fd : Int) (p : Params) (sq0 : SqState) (cq0 : CqState)
    (msq mcq msqes : Except Int Nat) (a b : Nat) :
    (p.features_single_mmap = true → msq = .ok a →
      ringRegionMaps (io_uring_mmap fd p sq0 cq0 msq mcq msqes).2.2.2 =
        [Ev.mmap a (max (p.sq_off.arr + p.sq_entries * SIZEOF_UNSIGNED)
                        (p.cq_off.cqes + p.cq_entries * SIZEOF_CQE))
           IORING_OFF_SQ_RING true true] ∧
      (io_uring_mmap fd p sq0 cq0 msq mcq msqes).2.2.1.ring_ptr =
        (io_uring_mmap fd p sq0 cq0 msq mcq msqes).2.1.ring_ptr ∧
      (io_uring_mmap fd p sq0 cq0 msq mcq msqes).2.1.ring_sz =
        max (p.sq_off.arr + p.sq_entries * SIZEOF_UNSIGNED)
            (p.cq_off.cqes + p.cq_entries * SIZEOF_CQE) ∧
      (io_uring_mmap fd p sq0 cq0 msq mcq msqes).2.2.1.ring_sz =
        max (p.sq_off.arr + p.sq_entries * SIZEOF_UNSIGNED)
            (p.cq_off.cqes + p.cq_entries * SIZEOF_CQE)) ∧
    (p.features_single_mmap = false → msq = .ok a → mcq = .ok b →
      ringRegionMaps (io_uring_mmap fd p sq0 cq0 msq mcq msqes).2.2.2 =
        [Ev.mmap a (p.sq_off.arr + p.sq_entries * SIZEOF_UNSIGNED)
           IORING_OFF_SQ_RING true true,
         Ev.mmap b (p.cq_off.cqes + p.cq_entries * SIZEOF_CQE)
           IORING_OFF_CQ_RING true true]) := by
  constructor
  · intro hs ha
    subst ha
    rw [max_eq_ite_lt]
    by_cases hlt : p.sq_off.arr + p.sq_entries * SIZEOF_UNSIGNED <
        p.cq_off.cqes + p.cq_entries * SIZEOF_CQE <;>
      rcases msqes with e3 | a3 <;>
        simp [io_uring_mmap, io_uring_mmap_sqes, io_uring_setup_ring_pointers,
          io_uring_unmap_rings, ringRegionMaps, hs, hlt, apply_ite,
          IORING_OFF_SQ_RING, IORING_OFF_CQ_RING, IORING_OFF_SQES]
  · intro hs ha hb
    subst ha
    subst hb
    rcases msqes with e3 | a3
    · simp only [io_uring_mmap, io_uring_mmap_sqes, hs]
      simp only [io_uring_unmap_rings, ringRegionMaps, Bool.false_eq_true, if_false,
        false_and, ite_false]
      split_ifs <;> simp [List.filter, IORING_OFF_SQ_RING, IORING_OFF_CQ_RING]
    · simp only [io_uring_mmap, io_uring_mmap_sqes, io_uring_setup_ring_pointers, hs]
      simp only [ringRegionMaps, Bool.false_eq_true, if_false, false_and, ite_false]
      simp [List.filter, IORING_OFF_SQ_RING, IORING_OFF_CQ_RING, IORING_OFF_SQES]

/-- Concrete params for a merged-mapping kernel: 4/8 entries, the sample
offset table, `IORING_FEAT_SINGLE_MMAP` reported. -/
def pSingle : Params :=
  { flags := 0, sq_entries := 4, cq_entries := 8, features_single_mmap := true,
    features_native_workers := false, sq_off := sqOff0, cq_off := cqOff0 }

/-- Concrete params for a dual-mapping kernel: as `pSingle` but without
the capability bit. -/
def pDual : Params :=
  { flags := 0, sq_entries := 4, cq_entries := 8, features_single_mmap := false,
    features_native_workers := false, sq_off := sqOff0, cq_off := cqOff0 }

/-- C5 witness: the merged path at a concrete offset table (one ring
mapping, aliased bases) and the dual path (two ring mappings). -/
theorem io_uring_mmap_merged_witness :
    (ringRegionMaps (io_uring_mmap 3 pSingle SqState.zero CqState.zero
        (.ok 4096) (.ok 8192) (.ok 12288)).2.2.2 =
      [Ev.mmap 4096 (max (128 + 4 * 4) (64 + 8 * 16)) IORING_OFF_SQ_RING true true] ∧
     (io_uring_mmap 3 pSingle SqState.zero CqState.zero
        (.ok 4096) (.ok 8192) (.ok 12288)).2.2.1.ring_ptr =
      (io_uring_mmap 3 pSingle SqState.zero CqState.zero
        (.ok 4096) (.ok 8192) (.ok 12288)).2.1.ring_ptr) ∧
    ringRegionMaps (io_uring_mmap 3 pDual SqState.zero CqState.zero
        (.ok 4096) (.ok 8192) (.ok 12288)).2.2.2 =
      [Ev.mmap 4096 (128 + 4 * 4) IORING_OFF_SQ_RING true true,
       Ev.mmap 8192 (64 + 8 * 16) IORING_OFF_CQ_RING true true] := by
  refine ⟨⟨?_, ?_⟩, ?_⟩
  · have h := (io_uring_mmap_merged 3 pSingle SqState.zero CqState.zero
      (.ok 4096) (.ok 8192) (.ok 12288) 4096 8192).1 rfl rfl
    rw [h.1]
    norm_num [pSingle, sqOff0, cqOff0, SIZEOF_UNSIGNED, SIZEOF_CQE]
  · exact ((io_uring_mmap_merged 3 pSingle SqState.zero CqState.zero
      (.ok 4096) (.ok 8192) (.ok 12288) 4096 8192).1 rfl rfl).2.1
  · have h := (io_uring_mmap_merged 3 pDual SqState.zero CqState.zero
      (.ok 4096) (.ok 8192) (.ok 12288) 4096 8192).2 rfl rfl rfl
    rw [h]
    norm_num [pDual, sqOff0, cqOff0, SIZEOF_UNSIGNED, SIZEOF_CQE]

/-- C6: on every mapping failure inside `io_uring_mmap` — the first ring
mapping, the completion-ring mapping, or the submission-entry-array
mapping — the unmap calls issued in the same invocation exactly match the
successful mapping calls (same addresses, same sizes, same order), so no
mapping established by the failed call remains resident, and the mapping
error is the return value. The distinctness side conditions hold for any
real `mmap`, which never returns `NULL` and never returns the address of
a still-live mapping. -/
theorem io_uring_mmap_unwind (fd : Int) (p : Params) (sq0 : SqState) (cq0 : CqState)
    (msq mcq msqes : Except Int Nat)
    (hssz : 0 < p.sq_off.arr + p.sq_entries * SIZEOF_UNSIGNED)
    (hcsz : 0 < p.cq_off.cqes + p.cq_entries * SIZEOF_CQE) :
    (∀ e, msq = .error e →
      (io_uring_mmap fd p sq0 cq0 msq mcq msqes).1 = e ∧
      munmapped (io_uring_mmap fd p sq0 cq0 msq mcq msqes).2.2.2 =
        mmapped (io_uring_mmap fd p sq0 cq0 msq mcq msqes).2.2.2 ∧
      mmapped (io_uring_mmap fd p sq0 cq0 msq mcq msqes).2.2.2 = []) ∧
    (∀ a e, msq = .ok a → mcq = .error e → p.features_single_mmap = false →
      (io_uring_mmap fd p sq0 cq0 msq mcq msqes).1 = e ∧
      munmapped (io_uring_mmap fd p sq0 cq0 msq mcq msqes).2.2.2 =
        mmapped (io_uring_mmap fd p sq0 cq0 msq mcq msqes).2.2.2) ∧
    (∀ a e, msq = .ok a → msqes = .error e → p.features_single_mmap = true →
      (io_uring_mmap fd p sq0 cq0 msq mcq msqes).1 = e ∧
      munmapped (io_uring_mmap fd p sq0 cq0 msq mcq msqes).2.2.2 =
        mmapped (io_uring_mmap fd p sq0 cq0 msq mcq msqes).2.2.2) ∧
    (∀ a b e, msq = .ok a → mcq = .ok b → msqes = .error e →
      p.features_single_mmap = false → b ≠ 0 → b ≠ a →
      (io_uring_mmap fd p sq0 cq0 msq mcq msqes).1 = e ∧
      munmapped (io_uring_mmap fd p sq0 cq0 msq mcq msqes).2.2.2 =
        mmapped (io_uring_mmap fd p sq0 cq0 msq mcq msqes).2.2.2) := by
  refine ⟨?_, ?_, ?_, ?_⟩
  · intro e he
    subst he
    simp [io_uring_mmap, munmapped, mmapped]
  · intro a e ha he hs
    subst ha
    subst he
    simp only [io_uring_mmap, hs]
    simp only [io_uring_unmap_rings, Bool.false_eq_true, if_false, false_and, ite_false]
    refine ⟨by trivial, ?_⟩
    rw [if_pos (by omega)]
    simp [munmapped, mmapped]
  · intro a e ha he hs
    subst ha
    subst he
    simp only [io_uring_mmap, io_uring_mmap_sqes, hs]
    simp only [io_uring_unmap_rings]
    constructor
    · split_ifs <;> rfl
    · have hsz : ¬((if p.features_single_mmap = true ∧
          p.sq_off.arr + p.sq_entries * SIZEOF_UNSIGNED <
            p.cq_off.cqes + p.cq_entries * SIZEOF_CQE then
          p.cq_off.cqes + p.cq_entries * SIZEOF_CQE
          else p.sq_off.arr + p.sq_entries * SIZEOF_UNSIGNED) = 0) := by
        split <;> omega
      split_ifs <;> simp_all [munmapped, mmapped]
  · intro a b e ha hb he hs hb0 hba
    subst ha
    subst hb
    subst he
    simp only [io_uring_mmap, io_uring_mmap_sqes, hs]
    simp only [io_uring_unmap_rings, Bool.false_eq_true, if_false, false_and, ite_false]
    refine ⟨by trivial, ?_⟩
    rw [if_pos (by omega), if_pos (by exact ⟨hb0, by omega, hba⟩)]
    simp [munmapped, mmapped]

/-- C6 witness: forcing the sqe-array mapping (the second of the two
mapping calls on a merged-mapping kernel, the third on a dual-mapping
kernel) to fail leaves an unmap trace exactly matching the map trace. -/
theorem io_uring_mmap_unwind_witness :
    (io_uring_mmap 3 pDual SqState.zero CqState.zero
      (.ok 4096) (.ok 8192) (.error (-12))).1 = -12 ∧
    munmapped (io_uring_mmap 3 pDual SqState.zero CqState.zero
      (.ok 4096) (.ok 8192) (.error (-12))).2.2.2 =
      mmapped (io_uring_mmap 3 pDual SqState.zero CqState.zero
        (.ok 4096) (.ok 8192) (.error (-12))).2.2.2 :=
  (io_uring_mmap_unwind 3 pDual SqState.zero CqState.zero
      (.ok 4096) (.ok 8192) (.error (-12))
      (by norm_num [pDual, sqOff0, SIZEOF_UNSIGNED])
      (by norm_num [pDual, cqOff0, SIZEOF_CQE])).2.2.2
    4096 8192 (-12) rfl rfl rfl rfl (by norm_num) (by norm_num)

/-! ### Contiguous Allocator (`io_uring_alloc_huge`) and ring lifecycle -/

/-- `struct io_uring` fields touched by setup.c. `flags` and
`internal_flags` are distinct fields, both zeroed by the initial
`memset`; the kernel-reported feature bits are kept as the two booleans
setup.c tests. -/
structure Ring where
  sq : SqState
  cq : CqState
  flags : Nat
  ring_fd : Int
  features_single_mmap : Bool
  features_native_workers : Bool
  internal_flags : Nat
deriving Repr, DecidableEq

/-- `memset(ring, 0, sizeof(*ring))`. -/
def Ring.zero : Ring :=
  { sq := SqState.zero, cq := CqState.zero, flags := 0, ring_fd := 0,
    features_single_mmap := false, features_native_workers := false,
    internal_flags := 0 }

/-- `(x + page_size - 1) & ~(page_size - 1)` for the power-of-two page
sizes the host reports. -/
def pageRoundUp (x page_size : Nat) : Nat :=
  (x + page_size - 1) - (x + page_size - 1) % page_size

/-- Continuation of `io_uring_alloc_huge` once `ptr`/`buf_size` are
settled (caller buffer or fresh anonymous huge-page mapping): lay the
sqe array at the start; if array plus ring region fit, the ring region
follows in place and both recorded ring sizes stay zero; otherwise a
second anonymous allocation of `buf_size` backs the ring region (failure
of that releases the first allocation); finally account the memory used
and publish both base addresses in the params. -/
def io_uring_alloc_huge_tail (sq_entries cq_entries : Nat) (p : Params)
    (sq : SqState) (cq : CqState) (ptr buf_size sqes_mem ring_mem page_size : Nat)
    (m2 : Except Int Nat) (ev : List Ev) :
    Int × SqState × CqState × Params × List Ev :=
  let sq := { sq with sqes := ptr }
  let step :=
    if sqes_mem + ring_mem ≤ buf_size then
      .ok ({ sq with ring_ptr := sq.sqes + sqes_mem, ring_sz := 0 },
           { cq with ring_sz := 0 }, ev)
    else
      match m2 with
      | .error e => Except.error (e, sq, cq, ev ++ [Ev.munmap sq.sqes buf_size])
      | .ok a2 =>
        .ok ({ sq with ring_ptr := a2, ring_sz := buf_size },
             { cq with ring_sz := 0 },
             ev ++ [Ev.mmap a2 buf_size 0 true false])
  match step with
  | .error (e, sq, cq, ev) => (e, sq, cq, p, ev)
  | .ok (sq, cq, ev) =>
    let mem_used := sqes_mem + sq_entries * SIZEOF_UNSIGNED +
      cq_entries * SIZEOF_UNSIGNED
    let mem_used := pageRoundUp mem_used page_size
    let cq := { cq with ring_ptr := sq.ring_ptr }
    let p := { p with sq_off := { p.sq_off with user_addr := sq.sqes },
                      cq_off := { p.cq_off with user_addr := sq.ring_ptr } }
    ((mem_used : Nat), sq, cq, p, ev)

/-- `io_uring_alloc_huge`: negotiate depths, size the sqe array
(page-rounded) and the shared ring region; with a caller buffer, fail
with `-ENOMEM` unless both fit, else use it in place; without one, make
a single anonymous huge-page allocation (`m1`). Returns the number of
bytes used (per the code's own accounting) or a negative error. -/
def io_uring_alloc_huge (entries : Nat) (p : Params) (sq : SqState) (cq : CqState)
    (buf : Option Nat) (buf_size page_size : Nat) (m1 m2 : Except Int Nat) :
    Int × SqState × CqState × Params × List Ev :=
  let g := get_sq_cq_entries entries p 0 0
  if g.1 ≠ 0 then (g.1, sq, cq, p, [])
  else
    let sq_entries := g.2.1
    let cq_entries := g.2.2.1
    let sqes_mem := pageRoundUp (sq_entries * SIZEOF_SQE) page_size
    let ring_mem := cq_entries * SIZEOF_CQE + sq_entries * SIZEOF_UNSIGNED
    match buf with
    | some bptr =>
      if buf_size < sqes_mem + ring_mem then (-ENOMEM, sq, cq, p, [])
      else io_uring_alloc_huge_tail sq_entries cq_entries p sq cq bptr buf_size
        sqes_mem ring_mem page_size m2 []
    | none =>
      match m1 with
      | .error e => (e, sq, cq, p, [])
      | .ok a =>
        io_uring_alloc_huge_tail sq_entries cq_entries p sq cq a huge_page_size
          sqes_mem ring_mem page_size m2 [Ev.mmap a huge_page_size 0 true false]

/-- `io_uring_queue_exit`. `kring_entries_val` is the value read through
the resolved pointer `*sq->kring_entries`. -/
def io_uring_queue_exit (ring : Ring) (kring_entries_val : Nat) : List Ev :=
  if ring.sq.ring_sz = 0 then
    [Ev.close ring.ring_fd, Ev.munmap ring.sq.sqes huge_page_size] ++
      io_uring_unmap_rings ring.sq ring.cq
  else
    (if ring.internal_flags &&& IORING_INT_FLAG_APP_MEM = 0 then
      [Ev.munmap ring.sq.sqes (kring_entries_val * SIZEOF_SQE)] ++
        io_uring_unmap_rings ring.sq ring.cq
    else []) ++ [Ev.close ring.ring_fd]

/-- Continuation of `__io_uring_queue_init_params` on the
`IORING_SETUP_NO_MMAP` path once the Contiguous Allocator has run, with
result `ar`: mark caller-owned memory, invoke ring creation, unwind on
its failure (per the code's `ring->flags` test), else resolve pointers
in place and record features, flags and the descriptor. -/
def io_uring_queue_init_nommap_cont (ar : Int × SqState × CqState × Params × List Ev)
    (buf : Option Nat) (setup_fd : Int) (setup_p : Params) : Int × Ring × List Ev :=
  let ring := Ring.zero
  if ar.1 < 0 then (ar.1, { ring with sq := ar.2.1, cq := ar.2.2.1 }, ar.2.2.2.2)
  else
    let ring := { ring with sq := ar.2.1, cq := ar.2.2.1 }
    let p1 := ar.2.2.2.1
    let ring := if buf.isSome then
        { ring with internal_flags := ring.internal_flags ||| IORING_INT_FLAG_APP_MEM }
      else ring
    if setup_fd < 0 then
      (setup_fd, ring,
        ar.2.2.2.2 ++
          (if p1.flags &&& IORING_SETUP_NO_MMAP ≠ 0 ∧
              ring.flags &&& IORING_INT_FLAG_APP_MEM = 0 then
            [Ev.munmap ring.sq.sqes huge_page_size] ++
              io_uring_unmap_rings ring.sq ring.cq
          else []))
    else
      let st := io_uring_setup_ring_pointers setup_p ring.sq ring.cq
      let ring := { ring with
        sq := st.1
        cq := st.2
        features_single_mmap := setup_p.features_single_mmap
        features_native_workers := setup_p.features_native_workers
        flags := setup_p.flags
        ring_fd := setup_fd }
      (ar.1, ring, ar.2.2.2.2)

/-- `__io_uring_queue_init_params`. The `____sys_io_uring_setup` syscall
is external: `setup_fd` is its return value and, when it succeeds,
`setup_p` is the kernel-filled params structure the rest of the function
reads. `m1`/`m2` feed the Contiguous Allocator's anonymous mappings and
`msq`/`mcq`/`msqes` the Region Mapper. -/
def __io_uring_queue_init_params (entries : Nat) (p : Params) (buf : Option Nat)
    (buf_size page_size : Nat) (m1 m2 : Except Int Nat)
    (setup_fd : Int) (setup_p : Params) (msq mcq msqes : Except Int Nat) :
    Int × Ring × List Ev :=
  let ring := Ring.zero
  if p.flags &&& IORING_SETUP_NO_MMAP ≠ 0 then
    io_uring_queue_init_nommap_cont
      (io_uring_alloc_huge entries p ring.sq ring.cq buf buf_size page_size m1 m2)
      buf setup_fd setup_p
  else
    if setup_fd < 0 then (setup_fd, ring, [])
    else
      let mr := io_uring_mmap setup_fd setup_p ring.sq ring.cq msq mcq msqes
      if mr.1 ≠ 0 then (mr.1, ring, mr.2.2.2 ++ [Ev.close setup_fd])
      else
        let ring := { ring with
          sq := mr.2.1
          cq := mr.2.2.1
          features_single_mmap := setup_p.features_single_mmap
          features_native_workers := setup_p.features_native_workers
          flags := setup_p.flags
          ring_fd := setup_fd }
        (0, ring, mr.2.2.2)

/-- `io_uring_queue_init_mem`: force `IORING_SETUP_NO_MMAP` and run the
shared init path with the caller's buffer. -/
def io_uring_queue_init_mem (entries : Nat) (p : Params) (buf : Nat)
    (buf_size page_size : Nat) (m1 m2 : Except Int Nat)
    (setup_fd : Int) (setup_p : Params) (msq mcq msqes : Except Int Nat) :
    Int × Ring × List Ev :=
  __io_uring_queue_init_params entries
    { p with flags := p.flags ||| IORING_SETUP_NO_MMAP } (some buf)
    buf_size page_size m1 m2 setup_fd setup_p msq mcq msqes

/-- Default-flag params with `IORING_SETUP_NO_MMAP` requested. -/
def pNoMmap : Params := { p0 with flags := IORING_SETUP_NO_MMAP }

/-- Depth negotiation of a request of 4 under `IORING_SETUP_NO_MMAP`
(neither clamp nor explicit CQ size set): depths 4/8. -/
theorem get_sq_cq_entries_4_eval :
    get_sq_cq_entries 4 pNoMmap 0 0 = (0, 4, 8, pNoMmap) := by
  have h1 : ¬((4 : Nat) = 0) := by norm_num
  have h2 : ¬(KERN_MAX_ENTRIES < 4 ∧ pNoMmap.flags &&& IORING_SETUP_CLAMP = 0) := by
    norm_num [KERN_MAX_ENTRIES]
  have h3 : ¬(pNoMmap.flags &&& IORING_SETUP_CQSIZE ≠ 0) := by decide
  have h4 : (if KERN_MAX_ENTRIES < 4 then KERN_MAX_ENTRIES else 4) = 4 := by
    norm_num [KERN_MAX_ENTRIES]
  have h5 : roundup_pow2 4 = 4 := by decide
  simp only [get_sq_cq_entries]
  rw [if_neg h1, if_neg h2, if_neg h3, h4, h5]

/-- C9: at negotiated depths 1024/2048 (4096-byte pages, ample caller
buffer) the allocator lays out `pageRoundUp(sqes) + ring_mem` = 102400
bytes of the buffer but returns only 77824, because its accounting adds
`cq_entries * sizeof(unsigned)` where the layout (and the code's own
`ring_mem` fit check) uses `cq_entries * sizeof(struct io_uring_cqe)`;
the `-ENOMEM` half of the claim does hold: an undersized caller buffer
is rejected. -/
theorem io_uring_alloc_huge_memused_bug :
    (io_uring_alloc_huge 1024 p0 SqState.zero CqState.zero (some 4194304)
      2097152 4096 (.ok 0) (.ok 0)).1 = 77824 ∧
    pageRoundUp (pageRoundUp (1024 * SIZEOF_SQE) 4096 +
      (2048 * SIZEOF_CQE + 1024 * SIZEOF_UNSIGNED)) 4096 = 102400 ∧
    (77824 : Int) ≠ 102400 ∧
    (io_uring_alloc_huge 1024 p0 SqState.zero CqState.zero (some 2048)
      4096 4096 (.ok 0) (.ok 0)).1 = -ENOMEM := by
  refine ⟨?_, by decide, by norm_num, ?_⟩ <;>
    · simp only [io_uring_alloc_huge]
      rw [get_sq_cq_entries_1024_eval]
      decide

/-- Allocator result layout for a request of 4 into a caller buffer at
4194304 (2 MiB): the sqe array occupies the first page, the ring region
follows at 4198400, both recorded ring sizes stay zero. -/
def sqAllocBuf : SqState := { SqState.zero with sqes := 4194304, ring_ptr := 4198400 }

def cqAllocBuf : CqState := { CqState.zero with ring_ptr := 4198400 }

def pAllocBuf : Params :=
  { pNoMmap with
    sq_off := { sqOff0 with user_addr := 4194304 }
    cq_off := { cqOff0 with user_addr := 4198400 } }

theorem io_uring_alloc_huge_4_buf_eval :
    io_uring_alloc_huge 4 pNoMmap Ring.zero.sq Ring.zero.cq (some 4194304) 2097152 4096
      (.ok 0) (.ok 0) = (8192, sqAllocBuf, cqAllocBuf, pAllocBuf, []) := by
  simp only [io_uring_alloc_huge]
  rw [get_sq_cq_entries_4_eval]
  decide

/-- Allocator result layout for a request of 4 with no caller buffer and
an anonymous huge-page allocation at 8388608. -/
def sqAllocAnon : SqState := { SqState.zero with sqes := 8388608, ring_ptr := 8392704 }

def cqAllocAnon : CqState := { CqState.zero with ring_ptr := 8392704 }

def pAllocAnon : Params :=
  { pNoMmap with
    sq_off := { sqOff0 with user_addr := 8388608 }
    cq_off := { cqOff0 with user_addr := 8392704 } }

theorem io_uring_alloc_huge_4_anon_eval :
    io_uring_alloc_huge 4 pNoMmap Ring.zero.sq Ring.zero.cq none 0 4096
      (.ok 8388608) (.ok 0) =
      (8192, sqAllocAnon, cqAllocAnon, pAllocAnon,
        [Ev.mmap 8388608 huge_page_size 0 true false]) := by
  simp only [io_uring_alloc_huge]
  rw [get_sq_cq_entries_4_eval]
  decide

/-- C1: a ring successfully initialized from a caller-supplied buffer
(here at address 4194304, 2 MiB) carries the `IORING_INT_FLAG_APP_MEM`
marking, yet `io_uring_queue_exit` unmaps 2 MiB at the caller's buffer
address in addition to closing the descriptor: the caller-owned guard
sits in the `ring_sz ≠ 0` branch, which a caller-buffer ring (whose
recorded ring sizes are zero) never takes. -/
theorem io_uring_queue_exit_app_mem_bug :
    (io_uring_queue_init_mem 4 p0 4194304 2097152 4096 (.ok 0) (.ok 0) 5 pDual
      (.ok 0) (.ok 0) (.ok 0)).2.1.internal_flags &&& IORING_INT_FLAG_APP_MEM ≠ 0 ∧
    io_uring_queue_exit
      (io_uring_queue_init_mem 4 p0 4194304 2097152 4096 (.ok 0) (.ok 0) 5 pDual
        (.ok 0) (.ok 0) (.ok 0)).2.1 4 =
      [Ev.close 5, Ev.munmap 4194304 huge_page_size] := by
  have hp : { p0 with flags := p0.flags ||| IORING_SETUP_NO_MMAP } = pNoMmap := by decide
  constructor <;>
    · simp only [io_uring_queue_init_mem]
      rw [hp]
      simp only [__io_uring_queue_init_params]
      rw [io_uring_alloc_huge_4_buf_eval]
      decide

/-- C2: when ring creation fails after the Contiguous Allocator prepared
memory, the unwind tests `ring->flags` (zeroed, and assigned only on
success) instead of `ring->internal_flags` where `IORING_INT_FLAG_APP_MEM`
was just stored, so it munmaps 2 MiB at the caller's buffer address —
the caller-owned half of the claim fails; the self-owned half holds: with
no caller buffer, the unwind's unmap calls exactly match the allocation's
mapping calls. -/
theorem init_params_unwind_app_mem_bug :
    (__io_uring_queue_init_params 4 pNoMmap (some 4194304) 2097152 4096
      (.ok 0) (.ok 0) (-1) p0 (.ok 0) (.ok 0) (.ok 0)).1 = -1 ∧
    (__io_uring_queue_init_params 4 pNoMmap (some 4194304) 2097152 4096
      (.ok 0) (.ok 0) (-1) p0 (.ok 0) (.ok 0) (.ok 0)).2.1.internal_flags &&&
      IORING_INT_FLAG_APP_MEM ≠ 0 ∧
    (__io_uring_queue_init_params 4 pNoMmap (some 4194304) 2097152 4096
      (.ok 0) (.ok 0) (-1) p0 (.ok 0) (.ok 0) (.ok 0)).2.2 =
      [Ev.munmap 4194304 huge_page_size] ∧
    munmapped (__io_uring_queue_init_params 4 pNoMmap none 0 4096
      (.ok 8388608) (.ok 0) (-1) p0 (.ok 0) (.ok 0) (.ok 0)).2.2 =
      mmapped (__io_uring_queue_init_params 4 pNoMmap none 0 4096
        (.ok 8388608) (.ok 0) (-1) p0 (.ok 0) (.ok 0) (.ok 0)).2.2 := by
  refine ⟨?_, ?_, ?_, ?_⟩ <;>
    · simp only [__io_uring_queue_init_params]
      first
      | rw [io_uring_alloc_huge_4_buf_eval]
      | rw [io_uring_alloc_huge_4_anon_eval]
      decide

end LibUring
